import Mathlib

/-!
Verification of the HTN crafting-domain compiler (`src/autoHTN.py`).

The embedding is single-agent: every per-agent dictionary in the source
(`state.time[ID]`, `getattr(state, item)[ID]`) is flattened to the one
agent the program ever uses, so a state is a time counter plus a total
map from resource names to integer counts.  Recipe mappings (Python
dicts with unique keys) are association lists; theorems that depend on
the dict invariant take an explicit `Nodup` hypothesis on the key list.
Python `False` returned by an operator is `Option.none`; a method's
three possible outcomes (subtask list, `False`, raised exception) are
the three constructors of `MethodResult`.
-/

/-- Python exceptions that the planner's compilation phase can raise. -/
inductive PyError where
  | keyError (k : String)
  | indexError
  | valueError
deriving DecidableEq

/-- A recipe as stored in `data['Recipes'][name]`, after the lazy
`rule.get('Requires', ...)` / `rule.get('Consumes', ...)` defaulting of the
two optional mappings to the empty dict. -/
structure Rule where
  timeCost : Nat
  requires : List (String × Nat)
  consumes : List (String × Nat)
  produces : List (String × Nat)
deriving DecidableEq

/-- The single-agent crafting state: the `time` counter plus one integer
counter per resource name. -/
structure CraftState where
  time : Int
  res : String → Int

/-- `setattr(state, item, ...)` with a fresh single-entry dict, i.e. a
pointwise update of one resource counter. -/
def setRes (s : CraftState) (item : String) (v : Int) : CraftState :=
  { s with res := fun x => if x = item then v else s.res x }

/-- The `Consumes` loop of the synthesized operator (lines 116-119 of the
source): subtract each consumed amount in list order. -/
def consumeAll (l : List (String × Nat)) (s : CraftState) : CraftState :=
  l.foldl (fun st p => setRes st p.1 (st.res p.1 - (p.2 : Int))) s

/-- The `Produces` loop of the synthesized operator (lines 122-124 of the
source): add each produced amount in list order. -/
def produceAll (l : List (String × Nat)) (s : CraftState) : CraftState :=
  l.foldl (fun st p => setRes st p.1 (st.res p.1 + (p.2 : Int))) s

/-- The effect part of the synthesized operator: spend the time cost, then
run the `Consumes` loop, then the `Produces` loop. -/
def applyEffects (rule : Rule) (s : CraftState) : CraftState :=
  produceAll rule.produces
    (consumeAll rule.consumes { s with time := s.time - (rule.timeCost : Int) })

/-- The primitive action synthesized by `make_operator(rule)`: guard checks
in source order (time, then `Requires`, then `Consumes`), each returning
Python `False` (here `none`) on the first failure, and the mutated state on
success. -/
def operator (rule : Rule) (s : CraftState) : Option CraftState :=
  if s.time < (rule.timeCost : Int) then none
  else if rule.requires.any (fun p => decide (s.res p.1 < (p.2 : Int))) then none
  else if rule.consumes.any (fun p => decide (s.res p.1 < (p.2 : Int))) then none
  else some (applyEffects rule s)

/-- Modelled from the spec: the guard condition as the spec words it —
`state.time ≥ recipe.time_cost`, every required amount present, every
consumed amount present.  Stated separately from `operator` so that the
operator's behaviour can be compared against it. -/
def specGuard (rule : Rule) (s : CraftState) : Prop :=
  (rule.timeCost : Int) ≤ s.time ∧
    (∀ p ∈ rule.requires, (p.2 : Int) ≤ s.res p.1) ∧
    (∀ p ∈ rule.consumes, (p.2 : Int) ≤ s.res p.1)

instance (rule : Rule) (s : CraftState) : Decidable (specGuard rule s) :=
  inferInstanceAs (Decidable (_ ∧ _ ∧ _))

/-- Helper: the synthesized operator is exactly the guarded transition. -/
theorem operator_eq_ite (rule : Rule) (s : CraftState) :
    operator rule s =
      if specGuard rule s then some (applyEffects rule s) else none := by
  by_cases hg : specGuard rule s
  · rw [if_pos hg]
    obtain ⟨ht, hr, hc⟩ := hg
    have h2 : ¬ (rule.requires.any (fun p => decide (s.res p.1 < (p.2 : Int))) = true) := by
      simp only [List.any_eq_true, decide_eq_true_eq, not_exists, not_and, not_lt]
      exact hr
    have h3 : ¬ (rule.consumes.any (fun p => decide (s.res p.1 < (p.2 : Int))) = true) := by
      simp only [List.any_eq_true, decide_eq_true_eq, not_exists, not_and, not_lt]
      exact hc
    unfold operator
    rw [if_neg (not_lt.mpr ht), if_neg h2, if_neg h3]
  · rw [if_neg hg]
    unfold operator
    by_cases h1 : s.time < (rule.timeCost : Int)
    · rw [if_pos h1]
    · rw [if_neg h1]
      by_cases h2 : rule.requires.any (fun p => decide (s.res p.1 < (p.2 : Int))) = true
      · rw [if_pos h2]
      · rw [if_neg h2]
        by_cases h3 : rule.consumes.any (fun p => decide (s.res p.1 < (p.2 : Int))) = true
        · rw [if_pos h3]
        · exfalso
          apply hg
          refine ⟨not_lt.mp h1, ?_, ?_⟩
          · intro p hp
            by_contra hlt
            exact h2 (List.any_eq_true.mpr ⟨p, hp, decide_eq_true (not_le.mp hlt)⟩)
          · intro p hp
            by_contra hlt
            exact h3 (List.any_eq_true.mpr ⟨p, hp, decide_eq_true (not_le.mp hlt)⟩)

/-- Helper: a successful application forces the guard. -/
theorem operator_some_guard {rule : Rule} {s s' : CraftState}
    (h : operator rule s = some s') : specGuard rule s := by
  rw [operator_eq_ite] at h
  by_cases hg : specGuard rule s
  · exact hg
  · rw [if_neg hg] at h
    exact absurd h (by simp)

/-- Helper: a successful application returns exactly the effect state. -/
theorem operator_some_eq {rule : Rule} {s s' : CraftState}
    (h : operator rule s = some s') : s' = applyEffects rule s := by
  rw [operator_eq_ite] at h
  by_cases hg : specGuard rule s
  · rw [if_pos hg] at h
    exact (Option.some_inj.mp h).symm
  · rw [if_neg hg] at h
    exact absurd h (by simp)

/-- C1: the primitive action synthesized by `make_operator` applies exactly
when the guard holds (time budget, then every `Requires` amount, then every
`Consumes` amount, checked in that order with short-circuit inside
`operator`); on guard failure it returns the distinguished inapplicable
value `none` (Python `False`), never an exception, and on success it
returns the mutated state `applyEffects rule s`. -/
theorem make_operator_guard_characterization (rule : Rule) (s : CraftState) :
    operator rule s =
      if specGuard rule s then some (applyEffects rule s) else none :=
  operator_eq_ite rule s

/-- Helper: the resource-update loops never touch the time counter. -/
theorem foldl_setRes_time (l : List (String × Nat))
    (f : CraftState → String × Nat → Int) (s : CraftState) :
    (l.foldl (fun st p => setRes st p.1 (f st p)) s).time = s.time := by
  induction l generalizing s with
  | nil => rfl
  | cons p ps ih => exact ih (setRes s p.1 (f s p))

theorem consumeAll_time (l : List (String × Nat)) (s : CraftState) :
    (consumeAll l s).time = s.time :=
  foldl_setRes_time l _ s

theorem produceAll_time (l : List (String × Nat)) (s : CraftState) :
    (produceAll l s).time = s.time :=
  foldl_setRes_time l _ s

/-- Helper: a resource whose name is not a key of the list is unchanged by
the update loops. -/
theorem foldl_setRes_res_of_not_mem (l : List (String × Nat))
    (f : CraftState → String × Nat → Int) (s : CraftState) (x : String)
    (hx : x ∉ l.map Prod.fst) :
    (l.foldl (fun st p => setRes st p.1 (f st p)) s).res x = s.res x := by
  induction l generalizing s with
  | nil => rfl
  | cons p ps ih =>
    have hx1 : x ≠ p.1 := by
      intro h
      exact hx (by simp [h])
    have hx2 : x ∉ ps.map Prod.fst := by
      intro h
      exact hx (by simp [h])
    rw [List.foldl_cons, ih _ hx2]
    simp [setRes, hx1]

theorem consumeAll_res_of_not_mem (l : List (String × Nat)) (s : CraftState)
    (x : String) (hx : x ∉ l.map Prod.fst) :
    (consumeAll l s).res x = s.res x :=
  foldl_setRes_res_of_not_mem l _ s x hx

theorem produceAll_res_of_not_mem (l : List (String × Nat)) (s : CraftState)
    (x : String) (hx : x ∉ l.map Prod.fst) :
    (produceAll l s).res x = s.res x :=
  foldl_setRes_res_of_not_mem l _ s x hx

theorem consumeAll_cons (p : String × Nat) (ps : List (String × Nat))
    (s : CraftState) :
    consumeAll (p :: ps) s = consumeAll ps (setRes s p.1 (s.res p.1 - (p.2 : Int))) :=
  rfl

theorem produceAll_cons (p : String × Nat) (ps : List (String × Nat))
    (s : CraftState) :
    produceAll (p :: ps) s = produceAll ps (setRes s p.1 (s.res p.1 + (p.2 : Int))) :=
  rfl

/-- Helper: with unique keys, the `Consumes` loop subtracts exactly the
listed amount from the listed item. -/
theorem consumeAll_res_of_mem (l : List (String × Nat)) (s : CraftState)
    (x : String) (a : Nat) (hnd : (l.map Prod.fst).Nodup) (hmem : (x, a) ∈ l) :
    (consumeAll l s).res x = s.res x - (a : Int) := by
  induction l generalizing s with
  | nil => cases hmem
  | cons p ps ih =>
    rw [List.map_cons, List.nodup_cons] at hnd
    rcases List.mem_cons.mp hmem with h | h
    · subst h
      rw [consumeAll_cons,
        consumeAll_res_of_not_mem ps _ x hnd.1]
      simp [setRes]
    · have hx1 : x ≠ p.1 := by
        intro he
        exact hnd.1 (he ▸ (List.mem_map.mpr ⟨(x, a), h, rfl⟩))
      rw [consumeAll_cons, ih _ hnd.2 h]
      simp [setRes, hx1]

/-- Helper: with unique keys, the `Produces` loop adds exactly the listed
amount to the listed item. -/
theorem produceAll_res_of_mem (l : List (String × Nat)) (s : CraftState)
    (x : String) (a : Nat) (hnd : (l.map Prod.fst).Nodup) (hmem : (x, a) ∈ l) :
    (produceAll l s).res x = s.res x + (a : Int) := by
  induction l generalizing s with
  | nil => cases hmem
  | cons p ps ih =>
    rw [List.map_cons, List.nodup_cons] at hnd
    rcases List.mem_cons.mp hmem with h | h
    · subst h
      rw [produceAll_cons,
        produceAll_res_of_not_mem ps _ x hnd.1]
      simp [setRes]
    · have hx1 : x ≠ p.1 := by
        intro he
        exact hnd.1 (he ▸ (List.mem_map.mpr ⟨(x, a), h, rfl⟩))
      rw [produceAll_cons, ih _ hnd.2 h]
      simp [setRes, hx1]

/-- Concrete recipe whose `Consumes` and `Produces` overlap on one item. -/
def overlapRule : Rule :=
  { timeCost := 0, requires := [], consumes := [("x", 1)], produces := [("x", 2)] }

/-- Concrete state holding one unit of every resource and no time. -/
def unitState : CraftState := { time := 0, res := fun _ => 1 }

/-- C2 counterexample: for a recipe that both consumes and produces the same
item, a successful application does not leave `new = old - consumed_amt` for
that item — the `Produces` loop runs after the `Consumes` loop, so the net
change is `+ produced - consumed` (here `1 - 1 + 2 = 2`, not `0`). -/
theorem make_operator_effects_overlap_cex :
    operator overlapRule unitState = some (applyEffects overlapRule unitState) ∧
    ("x", 1) ∈ overlapRule.consumes ∧
    (applyEffects overlapRule unitState).res "x" ≠ unitState.res "x" - (1 : Int) := by
  refine ⟨rfl, by simp [overlapRule], by decide⟩

/-- C2 (amended): for every recipe whose `Consumes` and `Produces` key sets
are disjoint (and with unique keys, the dict invariant), a successful
application subtracts the time cost from `time`, subtracts each consumed
amount, adds each produced amount, and leaves every item that appears only
in `Requires` unchanged. -/
theorem make_operator_effects (rule : Rule) (s s' : CraftState)
    (hcn : (rule.consumes.map Prod.fst).Nodup)
    (hpn : (rule.produces.map Prod.fst).Nodup)
    (hdisj : ∀ x ∈ rule.consumes.map Prod.fst, x ∉ rule.produces.map Prod.fst)
    (hs : operator rule s = some s') :
    s'.time = s.time - (rule.timeCost : Int) ∧
    (∀ p ∈ rule.consumes, s'.res p.1 = s.res p.1 - (p.2 : Int)) ∧
    (∀ p ∈ rule.produces, s'.res p.1 = s.res p.1 + (p.2 : Int)) ∧
    (∀ p ∈ rule.requires, p.1 ∉ rule.consumes.map Prod.fst →
      p.1 ∉ rule.produces.map Prod.fst → s'.res p.1 = s.res p.1) := by
  have he := operator_some_eq hs
  subst he
  unfold applyEffects
  refine ⟨?_, ?_, ?_, ?_⟩
  · rw [produceAll_time, consumeAll_time]
  · intro p hp
    have h1 : p.1 ∉ rule.produces.map Prod.fst :=
      hdisj p.1 (List.mem_map.mpr ⟨p, hp, rfl⟩)
    rw [produceAll_res_of_not_mem _ _ _ h1,
      consumeAll_res_of_mem _ _ p.1 p.2 hcn hp]
  · intro p hp
    have h1 : p.1 ∉ rule.consumes.map Prod.fst := fun hmem =>
      hdisj p.1 hmem (List.mem_map.mpr ⟨p, hp, rfl⟩)
    rw [produceAll_res_of_mem _ _ p.1 p.2 hpn hp,
      consumeAll_res_of_not_mem _ _ _ h1]
  · intro p hp h1 h2
    rw [produceAll_res_of_not_mem _ _ _ h2, consumeAll_res_of_not_mem _ _ _ h1]

/-- Concrete recipe with a required tool, a consumed material and a
produced item, all distinct. -/
def plankRule : Rule :=
  { timeCost := 2, requires := [("bench", 1)], consumes := [("wood", 1)],
    produces := [("plank", 4)] }

/-- Concrete state with a bench, some wood, and time to spare. -/
def plankState : CraftState :=
  { time := 10,
    res := fun x => if x = "bench" then 1 else if x = "wood" then 3 else 0 }

/-- C2 witness: the amended effect theorem at a concrete recipe and state. -/
theorem make_operator_effects_witness :
    (applyEffects plankRule plankState).time = plankState.time - ((2 : Nat) : Int) ∧
    (∀ p ∈ plankRule.consumes,
      (applyEffects plankRule plankState).res p.1 = plankState.res p.1 - (p.2 : Int)) ∧
    (∀ p ∈ plankRule.produces,
      (applyEffects plankRule plankState).res p.1 = plankState.res p.1 + (p.2 : Int)) ∧
    (∀ p ∈ plankRule.requires, p.1 ∉ plankRule.consumes.map Prod.fst →
      p.1 ∉ plankRule.produces.map Prod.fst →
      (applyEffects plankRule plankState).res p.1 = plankState.res p.1) :=
  make_operator_effects plankRule plankState (applyEffects plankRule plankState)
    (by decide) (by decide) (by decide) rfl

/-- Helper: the `Produces` loop keeps every counter non-negative. -/
theorem produceAll_nonneg (l : List (String × Nat)) (s : CraftState)
    (h0 : ∀ x, 0 ≤ s.res x) : ∀ x, 0 ≤ (produceAll l s).res x := by
  induction l generalizing s with
  | nil => exact h0
  | cons p ps ih =>
    rw [produceAll_cons]
    apply ih
    intro x
    by_cases hx : x = p.1
    · simp only [setRes, hx, if_pos rfl]
      exact add_nonneg (h0 p.1) (Int.natCast_nonneg p.2)
    · simp only [setRes, if_neg hx]
      exact h0 x

/-- Helper: under the guard and the dict invariant, the `Consumes` loop
keeps every counter non-negative. -/
theorem consumeAll_nonneg (l : List (String × Nat)) (s : CraftState)
    (hnd : (l.map Prod.fst).Nodup) (hg : ∀ p ∈ l, (p.2 : Int) ≤ s.res p.1)
    (h0 : ∀ x, 0 ≤ s.res x) : ∀ x, 0 ≤ (consumeAll l s).res x := by
  intro x
  by_cases hx : x ∈ l.map Prod.fst
  · obtain ⟨p, hp, hpe⟩ := List.mem_map.mp hx
    have hxp : (x, p.2) ∈ l := by
      rw [show (x, p.2) = p from Prod.ext hpe.symm rfl] at *
      exact hp
    rw [consumeAll_res_of_mem l s x p.2 hnd hxp]
    have := hg p hp
    rw [hpe] at this
    omega
  · rw [consumeAll_res_of_not_mem _ _ _ hx]
    exact h0 x

/-- C3: if every resource count (and the time budget) is non-negative and a
synthesized primitive action applies successfully, every resource count
(and the remaining time) is still non-negative: no primitive action drives
any counter negative. -/
theorem make_operator_preserves_nonneg (rule : Rule) (s s' : CraftState)
    (hcn : (rule.consumes.map Prod.fst).Nodup)
    (h0t : 0 ≤ s.time) (h0 : ∀ x, 0 ≤ s.res x)
    (hs : operator rule s = some s') :
    0 ≤ s'.time ∧ ∀ x, 0 ≤ s'.res x := by
  obtain ⟨ht, hr, hc⟩ := operator_some_guard hs
  have he := operator_some_eq hs
  subst he
  unfold applyEffects
  constructor
  · rw [produceAll_time, consumeAll_time]
    show 0 ≤ s.time - (rule.timeCost : Int)
    omega
  · apply produceAll_nonneg
    exact consumeAll_nonneg rule.consumes _ hcn hc h0

/-- C3 witness: the non-negativity invariant at a concrete recipe and
state. -/
theorem make_operator_preserves_nonneg_witness :
    0 ≤ (applyEffects plankRule plankState).time ∧
    ∀ x, 0 ≤ (applyEffects plankRule plankState).res x :=
  make_operator_preserves_nonneg plankRule plankState
    (applyEffects plankRule plankState) (by decide) (by decide)
    (fun x => by
      simp only [plankState]
      split_ifs <;> norm_num) rfl

/-- Planner tasks, the four tuple shapes built by the source:
`('have_enough', ID, item, num)`, `('produce', ID, item)`,
`('produce_<item>', ID)` and `('op_<recipe>', ID)`. -/
inductive PTask where
  | haveEnough (agent item : String) (n : Nat)
  | produce (agent item : String)
  | produceItem (item : String) (agent : String)
  | op (name : String) (agent : String)
deriving DecidableEq

/-- The parts of the loaded catalog that the pruning heuristic closes over:
`data['Tools']` and the keys of `data['Goal']`. -/
structure DomainData where
  tools : List String
  goal : List String
deriving DecidableEq

/-- The amount of `item` requested by pending `have_enough` tasks:
`sum([task[3] for task in tasks if len(task) > 3 and task[2] == item])` —
only `have_enough` tasks have more than three fields. -/
def neededAmount (item : String) (tasks : List PTask) : Nat :=
  (tasks.map (fun t =>
    match t with
    | PTask.haveEnough _ i n => if i = item then n else 0
    | _ => 0)).sum

/-- The pruning predicate registered by `add_heuristic(data, ID)`: four
checks tried in source order — duplicate-tool production, wooden-axe
suppression, stone-pickaxe suppression, repeated tool `have_enough` — and
`False` when none fires.  The `plan`, `depth` and `callingStack` arguments
are accepted (matching the registered signature) but never read, exactly as
in the source. -/
def heuristic (d : DomainData) (s : CraftState) (currTask : PTask)
    (tasks plan : List PTask) (depth : Nat) (callingStack : List PTask) : Bool :=
  if (match currTask with
      | PTask.produce _ item => decide (item ∈ d.tools) && decide (0 < s.res item)
      | _ => false) then true
  else if (match currTask with
      | PTask.produceItem item _ => decide (item = "wooden_axe")
      | _ => false) && decide (neededAmount "wood" tasks < 5)
        && !(decide ("wooden_axe" ∈ d.goal)) then true
  else if (match currTask with
      | PTask.produceItem item _ => decide (item = "stone_pickaxe")
      | _ => false) && !(decide ("stone_pickaxe" ∈ d.goal))
        && decide (neededAmount "cobble" tasks < 5) then true
  else if (match currTask with
      | PTask.haveEnough _ item _ => decide (item ∈ d.tools)
      | _ => false) && decide (1 < tasks.count currTask) then true
  else false

/-- C7 counterexample: no choice of catalog data and no configured maximum
depth makes the registered pruning predicate return `true` whenever the
depth argument exceeds that maximum — an `op_*` task at arbitrarily large
depth is never pruned, because none of the four checks reads `depth`. -/
theorem heuristic_depth_bound_cex :
    ¬ ∃ (d : DomainData) (maxDepth : Nat),
      ∀ (s : CraftState) (t : PTask) (tasks plan stack : List PTask) (depth : Nat),
        maxDepth < depth → heuristic d s t tasks plan depth stack = true := by
  rintro ⟨d, m, h⟩
  have hfalse := h { time := 0, res := fun _ => 0 } (PTask.op "x" "agent")
    [] [] [] (m + 1) (Nat.lt_succ_self m)
  simp [heuristic] at hfalse

/-- C7 (amended): the registered pruning predicate has no depth bound at
all — it ignores the `depth` argument entirely, returning the same verdict
for any two depths on otherwise identical inputs. -/
theorem heuristic_ignores_depth (d : DomainData) (s : CraftState)
    (currTask : PTask) (tasks plan stack : List PTask) (depth1 depth2 : Nat) :
    heuristic d s currTask tasks plan depth1 stack =
      heuristic d s currTask tasks plan depth2 stack :=
  rfl

/-- C8: whenever the current task is `('produce', agent, item)` for a
declared tool that is already owned (`state.get(item) > 0`), the registered
pruning predicate returns `true`: the first check fires and the branch is
pruned, so an owned tool is never reproduced. -/
theorem heuristic_prunes_owned_tool (d : DomainData) (s : CraftState)
    (agent item : String) (tasks plan stack : List PTask) (depth : Nat)
    (htool : item ∈ d.tools) (hown : 0 < s.res item) :
    heuristic d s (PTask.produce agent item) tasks plan depth stack = true := by
  unfold heuristic
  rw [if_pos]
  show (decide (item ∈ d.tools) && decide (0 < s.res item)) = true
  rw [decide_eq_true htool, decide_eq_true hown]
  rfl

/-- Concrete catalog data for the pruning witnesses: one declared tool and
an empty goal. -/
def benchDomain : DomainData := { tools := ["bench"], goal := [] }

/-- Concrete state that already owns the bench. -/
def benchState : CraftState :=
  { time := 0, res := fun x => if x = "bench" then 1 else 0 }

/-- C8 witness: the tool-reuse pruning theorem at a concrete task, state
and catalog. -/
theorem heuristic_prunes_owned_tool_witness :
    heuristic benchDomain benchState (PTask.produce "agent" "bench")
      [] [] 0 [] = true :=
  heuristic_prunes_owned_tool benchDomain benchState "agent" "bench"
    [] [] [] 0 (by decide) (by decide)

/-- Possible outcomes of running a decomposition method: a subtask list,
Python `False` (try the next alternative), or a raised exception. -/
inductive MethodResult where
  | subtasks (ts : List PTask)
  | notApplicable
  | raised (e : PyError)
deriving DecidableEq

/-- `check_enough(state, ID, item, num)`: empty subtask list when the item
count already meets the requested amount, `False` otherwise. -/
def check_enough (s : CraftState) (agent item : String) (n : Nat) :
    MethodResult :=
  if (n : Int) ≤ s.res item then MethodResult.subtasks []
  else MethodResult.notApplicable

/-- `produce_enough(state, ID, item, num)`: unconditionally produce one
unit of capability and re-check. -/
def produce_enough (s : CraftState) (agent item : String) (n : Nat) :
    MethodResult :=
  MethodResult.subtasks [PTask.produce agent item, PTask.haveEnough agent item n]

/-- The ordered alternatives registered by
`pyhop.declare_methods('have_enough', check_enough, produce_enough)`. -/
def haveEnoughMethods :
    List (CraftState → String → String → Nat → MethodResult) :=
  [check_enough, produce_enough]

/-- C6: the first `have_enough` alternative returns the empty subtask list
exactly when `state.get(item) ≥ amount` and signals `False` (not
applicable) otherwise; the second alternative unconditionally returns
`[produce(agent, item), have_enough(agent, item, amount)]`; and the check
alternative is registered before the produce-and-recheck alternative. -/
theorem have_enough_methods_characterization (s : CraftState)
    (agent item : String) (n : Nat) :
    (check_enough s agent item n = MethodResult.subtasks [] ↔
      (n : Int) ≤ s.res item) ∧
    (check_enough s agent item n = MethodResult.notApplicable ↔
      ¬ (n : Int) ≤ s.res item) ∧
    produce_enough s agent item n =
      MethodResult.subtasks
        [PTask.produce agent item, PTask.haveEnough agent item n] ∧
    haveEnoughMethods = [check_enough, produce_enough] := by
  refine ⟨?_, ?_, rfl, rfl⟩ <;> unfold check_enough <;>
    split_ifs with h <;> simp [h]

/-- C6 witness: the characterization at a concrete state and request. -/
theorem have_enough_methods_characterization_witness :
    (check_enough benchState "agent" "bench" 1 = MethodResult.subtasks [] ↔
      ((1 : Nat) : Int) ≤ benchState.res "bench") ∧
    (check_enough benchState "agent" "bench" 1 = MethodResult.notApplicable ↔
      ¬ ((1 : Nat) : Int) ≤ benchState.res "bench") ∧
    produce_enough benchState "agent" "bench" 1 =
      MethodResult.subtasks
        [PTask.produce "agent" "bench", PTask.haveEnough "agent" "bench" 1] ∧
    haveEnoughMethods = [check_enough, produce_enough] :=
  have_enough_methods_characterization benchState "agent" "bench" 1

/-- The hard-coded material-gathering priority list inside `make_method`
(source lines 36-37), verbatim. -/
def priorityOrder : List String :=
  ["bench", "furnace", "ingot", "ore", "coal", "cobble", "stick", "plank",
   "wood", "iron_axe", "stone_axe", "wooden_axe", "iron_pickaxe",
   "wooden_pickaxe", "stone_pickaxe"]

/-- Python `list.index`: position of the first occurrence, `none` when the
element is absent (where CPython raises `ValueError`). -/
def pyIndex (x : String) : List String → Option Nat
  | [] => none
  | y :: ys => if y = x then some 0 else (pyIndex x ys).map (· + 1)

/-- Python dict union `d1 | d2`: the keys of `d1` in order with values
overridden by `d2` on collision, then the keys of `d2` not in `d1`. -/
def dictMerge (d1 d2 : List (String × Nat)) : List (String × Nat) :=
  d1.map (fun p =>
    match d2.lookup p.1 with
    | some v => (p.1, v)
    | none => p) ++
  d2.filter (fun p => (d1.lookup p.1).isNone)

/-- Python `str.replace(' ', '_')` for the single-character pattern used by
the source. -/
def sanitize (s : String) : String :=
  String.mk (s.data.map (fun c => if c = ' ' then '_' else c))

/-- The operator task name `("op_" + name).replace(' ', '_')`. -/
def opTaskName (name : String) : String := sanitize ("op_" ++ name)

/-- The decomposition family name
`("produce_" + item).replace(' ', '_')`. -/
def produceTaskName (item : String) : String := sanitize ("produce_" ++ item)

/-- The decorate step of `sorted(needs.items(), key=...)`: pair every entry
with its priority index, failing (ValueError) if any item is absent from
the hard-coded list. -/
def decorate : List (String × Nat) → Option (List (Nat × String × Nat))
  | [] => some []
  | p :: ps =>
    match pyIndex p.1 priorityOrder, decorate ps with
    | some i, some rest => some ((i, p.1, p.2) :: rest)
    | _, _ => none

/-- Stable insertion of `x` into `l` by a natural-number key: `x` goes
before the first element whose key is not smaller, so earlier elements win
ties — the stability guarantee of Python `sorted`. -/
def insertLE {α : Type} (key : α → Nat) (x : α) : List α → List α
  | [] => [x]
  | y :: ys => if key x ≤ key y then x :: y :: ys else y :: insertLE key x ys

/-- Stable ascending sort by a natural-number key, the behaviour of Python
`sorted(l, key=...)`. -/
def sortByKey {α : Type} (key : α → Nat) : List α → List α
  | [] => []
  | x :: xs => insertLE key x (sortByKey key xs)

/-- The decomposition method generated by `make_method(name, rule)`,
applied to a state and agent: merge `Requires` and `Consumes`, sort the
entries by their position in the hard-coded priority list (raising
ValueError from `list.index` when an item is absent), emit one
`have_enough` subtask per entry, and append the primitive `op_*` task. -/
def make_method (name : String) (rule : Rule) (s : CraftState)
    (agent : String) : MethodResult :=
  match decorate (dictMerge rule.requires rule.consumes) with
  | none => MethodResult.raised PyError.valueError
  | some keyed =>
    MethodResult.subtasks
      ((sortByKey (fun q => q.1) keyed).map
        (fun q => PTask.haveEnough agent q.2.1 q.2.2) ++
       [PTask.op (opTaskName name) agent])

/-- Helper: `Option.map` preserves definedness. -/
theorem isSome_map {α β : Type} (f : α → β) (o : Option α) :
    (o.map f).isSome = o.isSome := by
  cases o <;> rfl

/-- Helper: `list.index` succeeds exactly on members. -/
theorem pyIndex_isSome (x : String) (l : List String) :
    (pyIndex x l).isSome = true ↔ x ∈ l := by
  induction l with
  | nil => simp [pyIndex]
  | cons y ys ih =>
    by_cases h : y = x
    · subst h
      simp [pyIndex]
    · rw [pyIndex, if_neg h, isSome_map, ih, List.mem_cons]
      constructor
      · exact Or.inr
      · rintro (he | hm)
        · exact absurd he.symm h
        · exact hm

/-- Helper: the decorate step fails exactly when some item of the needs
list is missing from the hard-coded priority list. -/
theorem decorate_none_iff (l : List (String × Nat)) :
    decorate l = none ↔ ∃ p ∈ l, p.1 ∉ priorityOrder := by
  induction l with
  | nil => simp [decorate]
  | cons p ps ih =>
    constructor
    · intro h
      rw [decorate] at h
      cases hpi : pyIndex p.1 priorityOrder with
      | none =>
        refine ⟨p, List.mem_cons_self p ps, ?_⟩
        intro hmem
        have hsome := (pyIndex_isSome p.1 priorityOrder).mpr hmem
        rw [hpi] at hsome
        simp at hsome
      | some i =>
        rw [hpi] at h
        cases hd : decorate ps with
        | none =>
          obtain ⟨q, hq, hqn⟩ := ih.mp hd
          exact ⟨q, List.mem_cons_of_mem p hq, hqn⟩
        | some rest =>
          rw [hd] at h
          simp at h
    · rintro ⟨q, hq, hqn⟩
      rcases List.mem_cons.mp hq with he | hm
      · subst he
        have hpi : pyIndex q.1 priorityOrder = none := by
          cases hpi : pyIndex q.1 priorityOrder with
          | none => rfl
          | some i =>
            exact absurd
              ((pyIndex_isSome q.1 priorityOrder).mp (by rw [hpi]; rfl)) hqn
        rw [decorate, hpi]
      · have hd : decorate ps = none := ih.mpr ⟨q, hm, hqn⟩
        rw [decorate, hd]
        cases pyIndex p.1 priorityOrder <;> rfl

/-- Helper: every needs entry survives the decorate step with some index. -/
theorem decorate_some_mem {l : List (String × Nat)}
    {keyed : List (Nat × String × Nat)} (h : decorate l = some keyed) :
    ∀ p ∈ l, ∃ i, (i, p.1, p.2) ∈ keyed := by
  induction l generalizing keyed with
  | nil => intro p hp; cases hp
  | cons q qs ih =>
    rw [decorate] at h
    cases hpi : pyIndex q.1 priorityOrder with
    | none =>
      rw [hpi] at h
      cases hd : decorate qs <;> rw [hd] at h <;> simp at h
    | some i =>
      rw [hpi] at h
      cases hd : decorate qs with
      | none =>
        rw [hd] at h
        simp at h
      | some rest =>
        rw [hd] at h
        rw [Option.some_inj] at h
        subst h
        intro p hp
        rcases List.mem_cons.mp hp with he | hm
        · subst he
          exact ⟨i, List.mem_cons_self _ _⟩
        · obtain ⟨j, hj⟩ := ih hd p hm
          exact ⟨j, List.mem_cons_of_mem _ hj⟩

/-- C10 counterexample: the hard-coded priority list inside `make_method`
contains fifteen names, not sixteen — it lists six axe/pickaxe names, not
seven. -/
theorem make_method_priority_list_cex :
    priorityOrder.length = 15 ∧ ¬ priorityOrder.length = 16 := by
  decide

/-- C10 (amended): the method generated by `make_method` is total exactly
on recipes whose merged `Requires` ∪ `Consumes` items all lie in the
fifteen-name hard-coded priority list; any recipe with a required or
consumed item outside that list makes the method raise (`list.index`
ValueError) instead of returning a subtask list or `False`. -/
theorem make_method_domain (name : String) (rule : Rule) (s : CraftState)
    (agent : String) :
    ((∀ p ∈ dictMerge rule.requires rule.consumes, p.1 ∈ priorityOrder) →
      ∃ ts, make_method name rule s agent = MethodResult.subtasks ts) ∧
    ((∃ p ∈ dictMerge rule.requires rule.consumes, p.1 ∉ priorityOrder) →
      make_method name rule s agent = MethodResult.raised PyError.valueError) ∧
    priorityOrder.length = 15 := by
  refine ⟨?_, ?_, rfl⟩
  · intro hall
    cases hd : decorate (dictMerge rule.requires rule.consumes) with
    | none =>
      obtain ⟨p, hp, hpn⟩ := (decorate_none_iff _).mp hd
      exact absurd (hall p hp) hpn
    | some keyed =>
      refine ⟨(sortByKey (fun q => q.1) keyed).map
          (fun q => PTask.haveEnough agent q.2.1 q.2.2) ++
          [PTask.op (opTaskName name) agent], ?_⟩
      unfold make_method
      rw [hd]
  · rintro ⟨p, hp, hpn⟩
    have hd : decorate (dictMerge rule.requires rule.consumes) = none :=
      (decorate_none_iff _).mpr ⟨p, hp, hpn⟩
    unfold make_method
    rw [hd]

/-- C10 witness: a recipe whose needs are all in the priority list yields a
subtask list, and one with an out-of-list item raises. -/
theorem make_method_domain_witness :
    (∃ ts, make_method "craft plank" plankRule benchState "agent" =
      MethodResult.subtasks ts) ∧
    make_method "bad" overlapRule benchState "agent" =
      MethodResult.raised PyError.valueError :=
  ⟨(make_method_domain "craft plank" plankRule benchState "agent").1
      (by decide),
    (make_method_domain "bad" overlapRule benchState "agent").2.1
      (by refine ⟨("x", 1), by decide, by decide⟩)⟩

/-- Helper: membership is preserved by stable insertion. -/
theorem mem_insertLE {α : Type} (key : α → Nat) (x z : α) (l : List α) :
    z ∈ insertLE key x l ↔ z = x ∨ z ∈ l := by
  induction l with
  | nil => simp [insertLE]
  | cons y ys ih =>
    rw [insertLE]
    by_cases h : key x ≤ key y
    · rw [if_pos h]
      simp [List.mem_cons]
    · rw [if_neg h]
      simp only [List.mem_cons, ih]
      tauto

/-- Helper: membership is preserved by the stable sort. -/
theorem mem_sortByKey {α : Type} (key : α → Nat) (z : α) (l : List α) :
    z ∈ sortByKey key l ↔ z ∈ l := by
  induction l with
  | nil => simp [sortByKey]
  | cons y ys ih =>
    rw [sortByKey, mem_insertLE, ih, List.mem_cons]

/-- Helper: stable insertion preserves ascending ordering by the key. -/
theorem pairwise_insertLE {α : Type} (key : α → Nat) (x : α) (l : List α)
    (h : l.Pairwise (fun a b => key a ≤ key b)) :
    (insertLE key x l).Pairwise (fun a b => key a ≤ key b) := by
  induction l with
  | nil => simp [insertLE]
  | cons y ys ih =>
    rw [List.pairwise_cons] at h
    rw [insertLE]
    by_cases hle : key x ≤ key y
    · rw [if_pos hle]
      refine List.Pairwise.cons ?_ (List.Pairwise.cons h.1 h.2)
      intro z hz
      rcases List.mem_cons.mp hz with he | hm
      · subst he; exact hle
      · exact le_trans hle (h.1 z hm)
    · rw [if_neg hle]
      refine List.Pairwise.cons ?_ (ih h.2)
      intro z hz
      rcases (mem_insertLE key x z ys).mp hz with he | hm
      · subst he
        exact le_of_lt (not_le.mp hle)
      · exact h.1 z hm

/-- Helper: the stable sort produces an ascending list. -/
theorem pairwise_sortByKey {α : Type} (key : α → Nat) (l : List α) :
    (sortByKey key l).Pairwise (fun a b => key a ≤ key b) := by
  induction l with
  | nil => exact List.Pairwise.nil
  | cons y ys ih => exact pairwise_insertLE key y (sortByKey key ys) ih

/-- Helper: inserting an element whose key equals `t` puts it in front of
every other key-`t` element (stability, positive case). -/
theorem filter_insertLE_pos {α : Type} (key : α → Nat) (x : α) (l : List α)
    (t : Nat) (hx : key x = t) :
    (insertLE key x l).filter (fun a => key a == t) =
      x :: l.filter (fun a => key a == t) := by
  induction l with
  | nil => simp [insertLE, hx]
  | cons y ys ih =>
    rw [insertLE]
    by_cases hle : key x ≤ key y
    · rw [if_pos hle]
      simp [List.filter_cons, hx]
    · rw [if_neg hle]
      have hy : ¬ (key y == t) = true := by
        simp only [beq_iff_eq]
        omega
      rw [List.filter_cons, if_neg hy, ih, List.filter_cons, if_neg hy]

/-- Helper: inserting an element whose key differs from `t` leaves the
key-`t` elements untouched (stability, negative case). -/
theorem filter_insertLE_neg {α : Type} (key : α → Nat) (x : α) (l : List α)
    (t : Nat) (hx : key x ≠ t) :
    (insertLE key x l).filter (fun a => key a == t) =
      l.filter (fun a => key a == t) := by
  induction l with
  | nil => simp [insertLE, hx]
  | cons y ys ih =>
    rw [insertLE]
    have hxf : ¬ (key x == t) = true := by
      simp only [beq_iff_eq]
      exact hx
    by_cases hle : key x ≤ key y
    · rw [if_pos hle, List.filter_cons, if_neg hxf]
    · rw [if_neg hle, List.filter_cons, List.filter_cons]
      by_cases hy : (key y == t) = true
      · rw [if_pos hy, if_pos hy, ih]
      · rw [if_neg hy, if_neg hy, ih]

/-- Helper: the stable sort keeps equal-key elements in their original
order — Python `sorted` stability. -/
theorem filter_sortByKey {α : Type} (key : α → Nat) (l : List α) (t : Nat) :
    (sortByKey key l).filter (fun a => key a == t) =
      l.filter (fun a => key a == t) := by
  induction l with
  | nil => rfl
  | cons y ys ih =>
    rw [sortByKey]
    by_cases hy : key y = t
    · rw [filter_insertLE_pos key y _ t hy, ih, List.filter_cons,
        if_pos (by simp [hy])]
    · rw [filter_insertLE_neg key y _ t hy, ih, List.filter_cons,
        if_neg (by simp [hy])]

/-- Grouping step of `declare_methods`: append the recipe to the method
list of its product key, creating the key on first sight (the behaviour of
the `methods` dict in source lines 77-80). -/
def addMethod (ms : List (String × List (String × Rule))) (k : String)
    (v : String × Rule) : List (String × List (String × Rule)) :=
  match ms with
  | [] => [(k, [v])]
  | (k0, vs) :: rest =>
    if k0 = k then (k0, vs ++ [v]) :: rest else (k0, vs) :: addMethod rest k v

/-- The grouping loop of `declare_methods` (source lines 68-80): walk the
recipe catalog in declaration order, keying each recipe by
`produce_<first Produces key>`; an empty `Produces` dict raises IndexError
at `list(recipe_info['Produces'].keys())[0]`. -/
def groupRecipes :
    List (String × Rule) → List (String × List (String × Rule)) →
      Except PyError (List (String × List (String × Rule)))
  | [], acc => Except.ok acc
  | (n, r) :: rest, acc =>
    match r.produces.head? with
    | none => Except.error PyError.indexError
    | some p => groupRecipes rest (addMethod acc (produceTaskName p.1) (n, r))

/-- The sort key used by `sorted(info, key=lambda x: x[1])`: the recipe's
time cost. -/
def timeKey (a : String × Rule) : Nat := a.2.timeCost

/-- `declare_methods(data)` in full: group the recipes by product, then
register each family sorted by ascending time cost (source lines 83-85);
the per-family lists keep `(recipe name, rule)` pairs standing for the
generated method closures. -/
def declare_methods (recipes : List (String × Rule)) :
    Except PyError (List (String × List (String × Rule))) :=
  match groupRecipes recipes [] with
  | Except.error e => Except.error e
  | Except.ok gs => Except.ok (gs.map (fun g => (g.1, sortByKey timeKey g.2)))

/-- Helper: adding a recipe under key `k` appends it to `k`'s family. -/
theorem lookup_addMethod_self (ms : List (String × List (String × Rule)))
    (k : String) (v : String × Rule) :
    ((addMethod ms k v).lookup k).getD [] = ((ms.lookup k).getD []) ++ [v] := by
  induction ms with
  | nil => simp [addMethod, List.lookup]
  | cons q rest ih =>
    obtain ⟨k0, vs⟩ := q
    rw [addMethod]
    by_cases h : k0 = k
    · subst h
      rw [if_pos rfl]
      simp [List.lookup]
    · rw [if_neg h]
      have hbeq : (k == k0) = false := beq_eq_false_iff_ne.mpr (Ne.symm h)
      simp [List.lookup, hbeq, ih]

/-- Helper: adding a recipe under key `k'` leaves other families alone. -/
theorem lookup_addMethod_other (ms : List (String × List (String × Rule)))
    (k k' : String) (v : String × Rule) (h : k' ≠ k) :
    (addMethod ms k' v).lookup k = ms.lookup k := by
  induction ms with
  | nil => simp [addMethod, List.lookup, beq_eq_false_iff_ne.mpr (Ne.symm h)]
  | cons q rest ih =>
    obtain ⟨k0, vs⟩ := q
    rw [addMethod]
    by_cases h0 : k0 = k'
    · subst h0
      rw [if_pos rfl]
      simp [List.lookup, beq_eq_false_iff_ne.mpr (Ne.symm h)]
    · rw [if_neg h0]
      by_cases hk : (k == k0) = true <;> simp [List.lookup, hk, ih]

/-- Helper: members of an accumulator family survive the grouping loop. -/
theorem groupRecipes_mono (l : List (String × Rule))
    (acc groups : List (String × List (String × Rule)))
    (k : String) (v : String × Rule) :
    groupRecipes l acc = Except.ok groups →
    v ∈ (acc.lookup k).getD [] → v ∈ (groups.lookup k).getD [] := by
  induction l generalizing acc with
  | nil =>
    intro h hv
    rw [groupRecipes] at h
    injection h with h2
    subst h2
    exact hv
  | cons nr rest ih =>
    intro h hv
    obtain ⟨n0, r0⟩ := nr
    rw [groupRecipes] at h
    cases hp0 : r0.produces.head? with
    | none =>
      rw [hp0] at h
      exact Except.noConfusion h
    | some p0 =>
      rw [hp0] at h
      apply ih _ h
      by_cases hk : produceTaskName p0.1 = k
      · subst hk
        rw [lookup_addMethod_self]
        exact List.mem_append_left _ hv
      · rw [lookup_addMethod_other _ _ _ _ hk]
        exact hv

/-- Helper: every recipe of the catalog ends up in the family of its first
produced item. -/
theorem groupRecipes_mem (l : List (String × Rule))
    (acc groups : List (String × List (String × Rule)))
    (name : String) (rule : Rule) (p : String × Nat)
    (hp : rule.produces.head? = some p) :
    groupRecipes l acc = Except.ok groups → (name, rule) ∈ l →
    (name, rule) ∈ (groups.lookup (produceTaskName p.1)).getD [] := by
  induction l generalizing acc with
  | nil =>
    intro h hmem
    cases hmem
  | cons nr rest ih =>
    intro h hmem
    obtain ⟨n0, r0⟩ := nr
    rw [groupRecipes] at h
    rcases List.mem_cons.mp hmem with he | hm
    · injection he with h1 h2
      subst h1
      subst h2
      rw [hp] at h
      refine groupRecipes_mono rest _ groups (produceTaskName p.1) (name, rule)
        h ?_
      rw [lookup_addMethod_self]
      exact List.mem_append_right _ (by simp)
    · cases hp0 : r0.produces.head? with
      | none =>
        rw [hp0] at h
        exact Except.noConfusion h
      | some p0 =>
        rw [hp0] at h
        exact ih _ h hm

/-- The family key of a recipe: `produce_<first Produces key>`, when the
`Produces` dict is non-empty. -/
def familyKey (r : Rule) : Option String :=
  r.produces.head?.map (fun p => produceTaskName p.1)

/-- Helper: each family is exactly the catalog's recipes with that family
key, in declaration order. -/
theorem groupRecipes_filter (l : List (String × Rule))
    (acc groups : List (String × List (String × Rule))) :
    groupRecipes l acc = Except.ok groups → ∀ k,
      (groups.lookup k).getD [] =
        (acc.lookup k).getD [] ++
          l.filter (fun nr => familyKey nr.2 == some k) := by
  induction l generalizing acc with
  | nil =>
    intro h k
    rw [groupRecipes] at h
    injection h with h2
    subst h2
    simp
  | cons nr rest ih =>
    intro h k
    obtain ⟨n0, r0⟩ := nr
    rw [groupRecipes] at h
    cases hp0 : r0.produces.head? with
    | none =>
      rw [hp0] at h
      exact Except.noConfusion h
    | some p0 =>
      rw [hp0] at h
      have hfk : familyKey r0 = some (produceTaskName p0.1) := by
        rw [familyKey, hp0]
        rfl
      rw [ih _ h k, List.filter_cons]
      by_cases hk : produceTaskName p0.1 = k
      · subst hk
        rw [lookup_addMethod_self]
        rw [if_pos (by simp [hfk])]
        rw [List.append_assoc]
        rfl
      · rw [lookup_addMethod_other _ _ _ _ hk]
        rw [if_neg (by simp [hfk, hk])]

/-- Decidable equality for `Except` results, so concrete runs of the
compilation pipeline can be checked by `decide`. -/
instance {e a : Type} [DecidableEq e] [DecidableEq a] : DecidableEq (Except e a) :=
  fun x y =>
  match x, y with
  | Except.ok v, Except.ok w =>
    if h : v = w then isTrue (by rw [h])
    else isFalse (by intro he; injection he; exact h (by assumption))
  | Except.error v, Except.error w =>
    if h : v = w then isTrue (by rw [h])
    else isFalse (by intro he; injection he; exact h (by assumption))
  | Except.ok _, Except.error _ => isFalse (fun he => Except.noConfusion he)
  | Except.error _, Except.ok _ => isFalse (fun he => Except.noConfusion he)

/-- Concrete recipe producing two items. -/
def multiRule : Rule :=
  { timeCost := 1, requires := [], consumes := [], produces := [("a", 1), ("b", 1)] }

/-- C4 counterexample: `declare_methods` keys every recipe by the FIRST
`Produces` entry only (`list(recipe_info['Produces'].keys())[0]`), so a
recipe producing both `a` and `b` registers an alternative under
`produce_a` but none under `produce_b`, although `b` is listed in its
`produces` mapping. -/
theorem declare_methods_first_product_only_cex :
    declare_methods [("multi", multiRule)] =
      Except.ok [("produce_a", [("multi", multiRule)])] ∧
    ("b", 1) ∈ multiRule.produces ∧
    List.lookup "produce_b" [("produce_a", [("multi", multiRule)])] = none := by
  refine ⟨by decide, by decide, rfl⟩

/-- C4 (amended): for every recipe R of the catalog, the decomposition
family keyed by R's FIRST produced item contains an alternative derived
from R, both before and after the time-cost sort that `declare_methods`
registers; and — provided every item of R's merged `Requires` ∪ `Consumes`
mapping is in the hard-coded priority list, so the generated method does
not raise — that alternative returns a `have_enough(agent, item, amt)`
subtask for every entry of the merged mapping, followed by R's primitive
`op_*` task as the final element. -/
theorem declare_methods_family_membership (recipes : List (String × Rule))
    (groups : List (String × List (String × Rule)))
    (name : String) (rule : Rule) (p : String × Nat) (s : CraftState)
    (agent : String)
    (h : groupRecipes recipes [] = Except.ok groups)
    (hmem : (name, rule) ∈ recipes)
    (hp : rule.produces.head? = some p) :
    (name, rule) ∈ (groups.lookup (produceTaskName p.1)).getD [] ∧
    declare_methods recipes =
      Except.ok (groups.map (fun g => (g.1, sortByKey timeKey g.2))) ∧
    (name, rule) ∈ sortByKey timeKey ((groups.lookup (produceTaskName p.1)).getD []) ∧
    ((∀ q ∈ dictMerge rule.requires rule.consumes, q.1 ∈ priorityOrder) →
      ∃ ts, make_method name rule s agent = MethodResult.subtasks ts ∧
        (∀ q ∈ dictMerge rule.requires rule.consumes,
          PTask.haveEnough agent q.1 q.2 ∈ ts) ∧
        ts.getLast? = some (PTask.op (opTaskName name) agent)) := by
  have hmem1 := groupRecipes_mem recipes [] groups name rule p hp h hmem
  refine ⟨hmem1, ?_, (mem_sortByKey timeKey _ _).mpr hmem1, ?_⟩
  · unfold declare_methods
    rw [h]
  · intro hall
    cases hd : decorate (dictMerge rule.requires rule.consumes) with
    | none =>
      obtain ⟨q, hq, hqn⟩ := (decorate_none_iff _).mp hd
      exact absurd (hall q hq) hqn
    | some keyed =>
      refine ⟨(sortByKey (fun q => q.1) keyed).map
          (fun q => PTask.haveEnough agent q.2.1 q.2.2) ++
          [PTask.op (opTaskName name) agent], ?_, ?_, ?_⟩
      · unfold make_method
        rw [hd]
      · intro q hq
        obtain ⟨i, hi⟩ := decorate_some_mem hd q hq
        apply List.mem_append_left
        exact List.mem_map.mpr
          ⟨(i, q.1, q.2), (mem_sortByKey _ _ _).mpr hi, rfl⟩
      · exact List.getLast?_concat _

/-- C5: each registered `produce_<item>` family is the catalog's recipes
with that family key in declaration order, sorted by `declare_methods` into
non-decreasing time-cost order with ties keeping declaration order (the
stability of Python `sorted`). -/
theorem declare_methods_sorted_stable (recipes : List (String × Rule))
    (groups : List (String × List (String × Rule)))
    (h : groupRecipes recipes [] = Except.ok groups) :
    declare_methods recipes =
      Except.ok (groups.map (fun g => (g.1, sortByKey timeKey g.2))) ∧
    (∀ k, (groups.lookup k).getD [] =
      recipes.filter (fun nr => familyKey nr.2 == some k)) ∧
    ∀ g ∈ groups,
      (sortByKey timeKey g.2).Pairwise (fun a b => timeKey a ≤ timeKey b) ∧
      ∀ t, (sortByKey timeKey g.2).filter (fun a => timeKey a == t) =
        g.2.filter (fun a => timeKey a == t) := by
  refine ⟨?_, ?_, ?_⟩
  · unfold declare_methods
    rw [h]
  · intro k
    have hf := groupRecipes_filter recipes [] groups h k
    simpa using hf
  · intro g hg
    exact ⟨pairwise_sortByKey timeKey g.2, fun t => filter_sortByKey timeKey g.2 t⟩

/-- The slower plank recipe of the two-recipe ordering scenario. -/
def r2rule : Rule :=
  { timeCost := 5, requires := [], consumes := [], produces := [("plank", 1)] }

/-- The faster plank recipe of the two-recipe ordering scenario. -/
def r1rule : Rule :=
  { timeCost := 2, requires := [], consumes := [], produces := [("plank", 1)] }

/-- A catalog declaring the slow recipe before the fast one. -/
def plankRecipes : List (String × Rule) := [("R2", r2rule), ("R1", r1rule)]

/-- The grouping that `groupRecipes` builds for `plankRecipes`. -/
def plankGroups : List (String × List (String × Rule)) :=
  [("produce_plank", [("R2", r2rule), ("R1", r1rule)])]

/-- C5 witness: the ordering theorem on the concrete two-recipe catalog,
plus the concrete check that R1 (cost 2) ends up registered before R2
(cost 5) even though R2 was declared first. -/
theorem declare_methods_sorted_stable_witness :
    (declare_methods plankRecipes =
      Except.ok (plankGroups.map (fun g => (g.1, sortByKey timeKey g.2))) ∧
     (∀ k, (plankGroups.lookup k).getD [] =
       plankRecipes.filter (fun nr => familyKey nr.2 == some k)) ∧
     ∀ g ∈ plankGroups,
       (sortByKey timeKey g.2).Pairwise (fun a b => timeKey a ≤ timeKey b) ∧
       ∀ t, (sortByKey timeKey g.2).filter (fun a => timeKey a == t) =
         g.2.filter (fun a => timeKey a == t)) ∧
    sortByKey timeKey [("R2", r2rule), ("R1", r1rule)] =
      [("R1", r1rule), ("R2", r2rule)] :=
  ⟨declare_methods_sorted_stable plankRecipes plankGroups (by decide),
    by decide⟩

/-- C4 witness: the family-membership theorem on a one-recipe catalog whose
recipe name contains a space and whose needs are all in the priority
list. -/
theorem declare_methods_family_membership_witness :
    ("craft plank", plankRule) ∈
      ((List.lookup (produceTaskName "plank")
        [("produce_plank", [("craft plank", plankRule)])]).getD []) ∧
    declare_methods [("craft plank", plankRule)] =
      Except.ok ([("produce_plank", [("craft plank", plankRule)])].map
        (fun g => (g.1, sortByKey timeKey g.2))) ∧
    ("craft plank", plankRule) ∈ sortByKey timeKey
      ((List.lookup (produceTaskName "plank")
        [("produce_plank", [("craft plank", plankRule)])]).getD []) ∧
    ((∀ q ∈ dictMerge plankRule.requires plankRule.consumes,
        q.1 ∈ priorityOrder) →
      ∃ ts, make_method "craft plank" plankRule benchState "agent" =
          MethodResult.subtasks ts ∧
        (∀ q ∈ dictMerge plankRule.requires plankRule.consumes,
          PTask.haveEnough "agent" q.1 q.2 ∈ ts) ∧
        ts.getLast? = some (PTask.op (opTaskName "craft plank") "agent")) :=
  declare_methods_family_membership [("craft plank", plankRule)]
    [("produce_plank", [("craft plank", plankRule)])]
    "craft plank" plankRule ("plank", 4) benchState "agent"
    (by decide) (by decide) (by decide)

/-- A recipe as it sits in the parsed JSON, before any field access: every
field may be absent. -/
structure RawRecipe where
  time? : Option Nat
  requires? : Option (List (String × Nat))
  consumes? : Option (List (String × Nat))
  produces? : Option (List (String × Nat))
deriving DecidableEq

/-- The parsed `crafting.json` top level, before any key access: the three
keys the pre-search pipeline reads may each be absent. -/
structure RawData where
  recipes? : Option (List (String × RawRecipe))
  items? : Option (List String)
  tools? : Option (List String)
deriving DecidableEq

/-- The per-recipe field accesses of the `declare_methods` loop, in source
order: `recipe_info['Time']` (KeyError), then `recipe_info['Produces']`
(KeyError), then `...keys())[0]` (IndexError on an empty dict); the
`Requires`/`Consumes` dicts are only read lazily by `.get`, so they default
to empty and can never fail here. -/
def cookRecipe (rr : RawRecipe) : Except PyError Rule :=
  match rr.time? with
  | none => Except.error (PyError.keyError "Time")
  | some t =>
    match rr.produces? with
    | none => Except.error (PyError.keyError "Produces")
    | some ps =>
      match ps.head? with
      | none => Except.error PyError.indexError
      | some _ =>
        Except.ok
          { timeCost := t, requires := rr.requires?.getD [],
            consumes := rr.consumes?.getD [], produces := ps }

/-- The recipe loop of `declare_methods`, failing at the first recipe whose
required fields are absent. -/
def cookRecipes : List (String × RawRecipe) → Except PyError (List (String × Rule))
  | [] => Except.ok []
  | (n, rr) :: rest =>
    match cookRecipe rr with
    | Except.error e => Except.error e
    | Except.ok r =>
      match cookRecipes rest with
      | Except.error e => Except.error e
      | Except.ok rs => Except.ok ((n, r) :: rs)

/-- `set_up_state(data, test_case, ID, time)`: reads `data['Items']` then
`data['Tools']` (KeyError when absent), zero-fills every declared resource,
then overwrites from the test case's `Initial` dict. -/
def set_up_state (raw : RawData) (initial : List (String × Int))
    (startTime : Int) : Except PyError CraftState :=
  match raw.items? with
  | none => Except.error (PyError.keyError "Items")
  | some _ =>
    match raw.tools? with
    | none => Except.error (PyError.keyError "Tools")
    | some _ =>
      Except.ok
        { time := startTime,
          res := fun x => (initial.lookup x).getD 0 }

/-- `declare_operators(data)`: iterates `data['Recipes']` (KeyError when
absent) building operator closures; no recipe field is read until an
operator runs, so nothing else can fail here. -/
def declare_operators (raw : RawData) : Except PyError Unit :=
  match raw.recipes? with
  | none => Except.error (PyError.keyError "Recipes")
  | some _ => Except.ok ()

/-- `declare_methods(data)` on the raw catalog: `data['Recipes']`
(KeyError when absent), then the per-recipe field accesses, then the
grouping and time-cost sorting. -/
def declareMethodsRaw (raw : RawData) :
    Except PyError (List (String × List (String × Rule))) :=
  match raw.recipes? with
  | none => Except.error (PyError.keyError "Recipes")
  | some rrs =>
    match cookRecipes rrs with
    | Except.error e => Except.error e
    | Except.ok rs => declare_methods rs

/-- Everything `main` runs for a test case before the search starts, in
source order: `set_up_state`, `declare_operators`, `declare_methods`
(`set_up_goals` and `add_heuristic` read nothing from the catalog). -/
def setupPipeline (raw : RawData) (initial : List (String × Int))
    (startTime : Int) :
    Except PyError (List (String × List (String × Rule))) :=
  match set_up_state raw initial startTime with
  | Except.error e => Except.error e
  | Except.ok _ =>
    match declare_operators raw with
    | Except.error e => Except.error e
    | Except.ok _ => declareMethodsRaw raw

/-- Helper: when the recipe loop succeeds, every recipe had its `Time` and
`Produces` fields. -/
theorem cookRecipes_ok (rrs : List (String × RawRecipe))
    (rs : List (String × Rule)) :
    cookRecipes rrs = Except.ok rs →
    ∀ q ∈ rrs, q.2.time?.isSome = true ∧ q.2.produces?.isSome = true := by
  induction rrs generalizing rs with
  | nil =>
    intro _ q hq
    cases hq
  | cons nr rest ih =>
    intro h q hq
    obtain ⟨n0, rr0⟩ := nr
    rw [cookRecipes] at h
    cases hc : cookRecipe rr0 with
    | error e =>
      rw [hc] at h
      exact Except.noConfusion h
    | ok r =>
      rw [hc] at h
      cases hrest : cookRecipes rest with
      | error e =>
        rw [hrest] at h
        exact Except.noConfusion h
      | ok rs0 =>
        rcases List.mem_cons.mp hq with he | hm
        · subst he
          rw [cookRecipe] at hc
          cases ht : rr0.time? with
          | none =>
            rw [ht] at hc
            exact Except.noConfusion hc
          | some t =>
            rw [ht] at hc
            cases hps : rr0.produces? with
            | none =>
              rw [hps] at hc
              exact Except.noConfusion hc
            | some ps =>
              exact ⟨rfl, rfl⟩
        · exact ih rs0 hrest q hm

/-- C9 (amended): whenever the pre-search pipeline succeeds, the catalog
had its `Recipes`, `Items` and `Tools` keys and every recipe had `Time`
and `Produces` — equivalently, any of those keys missing makes the
pipeline raise a KeyError before the search begins.  (There is no
`SchemaError` type, and — see the counterexample — undeclared resources in
`requires`/`consumes`/`produces` are NOT rejected at load time.) -/
theorem setupPipeline_requires_keys (raw : RawData)
    (initial : List (String × Int)) (startTime : Int)
    (out : List (String × List (String × Rule)))
    (h : setupPipeline raw initial startTime = Except.ok out) :
    raw.items?.isSome = true ∧ raw.tools?.isSome = true ∧
    raw.recipes?.isSome = true ∧
    ∀ rrs, raw.recipes? = some rrs →
      ∀ q ∈ rrs, q.2.time?.isSome = true ∧ q.2.produces?.isSome = true := by
  rw [setupPipeline] at h
  cases hs : set_up_state raw initial startTime with
  | error e =>
    rw [hs] at h
    exact Except.noConfusion h
  | ok st =>
    rw [hs] at h
    cases ho : declare_operators raw with
    | error e =>
      rw [ho] at h
      exact Except.noConfusion h
    | ok u =>
      rw [ho] at h
      rw [set_up_state] at hs
      rw [declare_operators] at ho
      cases hi : raw.items? with
      | none =>
        rw [hi] at hs
        exact Except.noConfusion hs
      | some items =>
        rw [hi] at hs
        cases htl : raw.tools? with
        | none =>
          rw [htl] at hs
          exact Except.noConfusion hs
        | some tools =>
          cases hr : raw.recipes? with
          | none =>
            rw [hr] at ho
            exact Except.noConfusion ho
          | some rrs =>
            refine ⟨rfl, rfl, rfl, ?_⟩
            intro rrs0 hr0
            rw [Option.some_inj] at hr0
            subst hr0
            rw [declareMethodsRaw, hr] at h
            dsimp only at h
            cases hck : cookRecipes rrs with
            | error e =>
              rw [hck] at h
              exact Except.noConfusion h
            | ok rs =>
              exact cookRecipes_ok rrs rs hck

/-- A raw catalog whose single recipe consumes an item declared nowhere. -/
def badRefRaw : RawData :=
  { recipes? := some [("bad",
      { time? := some 1, requires? := none,
        consumes? := some [("unobtainium", 1)],
        produces? := some [("wood", 1)] })],
    items? := some ["wood"],
    tools? := some [] }

/-- C9 counterexample: the pre-search pipeline accepts a catalog whose
recipe consumes `unobtainium`, a resource declared neither in `Items` nor
in `Tools` — loading does NOT fail for undeclared resource references, and
no `SchemaError` exists; such a reference only blows up later, during the
search. -/
theorem setupPipeline_undeclared_reference_cex :
    setupPipeline badRefRaw [] 0 =
      Except.ok [("produce_wood", [("bad",
        { timeCost := 1, requires := [], consumes := [("unobtainium", 1)],
          produces := [("wood", 1)] })])] ∧
    "unobtainium" ∉ ["wood"] ++ ([] : List String) := by
  exact ⟨by decide, by decide⟩

/-- A raw catalog with all required keys present. -/
def goodRaw : RawData :=
  { recipes? := some [("craft plank",
      { time? := some 1, requires? := none,
        consumes? := some [("wood", 1)],
        produces? := some [("plank", 1)] })],
    items? := some ["wood", "plank"],
    tools? := some ["bench"] }

/-- C9 witness: the amended key-presence theorem at a concrete well-keyed
catalog. -/
theorem setupPipeline_requires_keys_witness :
    goodRaw.items?.isSome = true ∧ goodRaw.tools?.isSome = true ∧
    goodRaw.recipes?.isSome = true ∧
    ∀ rrs, goodRaw.recipes? = some rrs →
      ∀ q ∈ rrs, q.2.time?.isSome = true ∧ q.2.produces?.isSome = true :=
  setupPipeline_requires_keys goodRaw [] 300
    ((setupPipeline goodRaw [] 300).toOption.getD []) (by decide)
